import Mathlib

/-!
Verification of the Spider Solitaire rules engine and game controller.

The data model follows `types.ts`.  The game controller handlers
(`handleDeal`, the successful-move branch of `handleCardClick`, and
`handleEmptyColumnClick`) are embedded from the App component source.
The pure core functions (`canMoveSequence`, `isValidMove`,
`checkAndRemoveCompleteSet`, `dealInitial`) live in `utils/gameLogic.ts`,
which is not part of the available sources; those are modelled from the
specification, as marked on each definition.
-/

namespace Spider

/-- The four suits of `types.ts` (`Suit` enum). -/
inductive Suit : Type
  | spades
  | hearts
  | diamonds
  | clubs
deriving DecidableEq, Repr

/-- A card, following `Card` in `types.ts`.  The `rank` field stores the
ordinal rank value `RANK_VALUES[rank] ∈ {1,…,13}` (A = 1, …, K = 13); the
symbolic rank of the source is in bijection with it.  The `id` is an opaque
identifier (a string in the source), never inspected by the game logic. -/
structure Card : Type where
  id : Nat
  suit : Suit
  rank : Nat
  isFaceUp : Bool
deriving DecidableEq, Repr

/-- A tableau column: index 0 is the bottom, the last element is the top. -/
abbrev Column := List Card

/-- `GameState` of `types.ts`: the 10-column tableau, the stock, the number
of completed King-to-Ace sets removed, the move counter and the score. -/
structure GameState : Type where
  tableau : List Column
  stock : List Card
  foundations : Nat
  moves : Nat
  score : Int
deriving DecidableEq, Repr

/-- Helper for the run checks: `descFrom p l` holds when every card of `l`
is face-up and `p :: l` is a same-suit run descending by exactly one rank
at each step. -/
def descFrom (p : Card) : List Card → Bool
  | [] => true
  | c :: rest => c.isFaceUp && (c.suit == p.suit) && (c.rank + 1 == p.rank) && descFrom c rest

/-- Modelled from the spec: `canMoveSequence` (Sequence Checker, gameLogic.ts,
not in the available sources).  True iff the candidate sequence is non-empty,
every card is face-up, and consecutive cards form a strictly descending
same-suit run (each rank value one less than the previous). -/
def canMoveSequence (cards : List Card) : Bool :=
  match cards with
  | [] => false
  | c :: rest => c.isFaceUp && descFrom c rest

/-- Modelled from the spec: `isValidMove` (Move Validator, gameLogic.ts, not
in the available sources).  True iff the destination top card exists and the
moving sequence's bottom card (its first element in stored bottom-to-top
order) has rank value exactly one less than the destination's; no suit
condition relates the two. -/
def isValidMove (movingCards : List Card) (destCard : Option Card) : Bool :=
  match destCard, movingCards with
  | some dest, bottom :: _ => bottom.rank + 1 == dest.rank
  | _, _ => false

/-- Part of the modelled Set Completion Detector: a complete King-to-Ace
set is 13 face-up cards of one suit descending from rank 13 to rank 1. -/
def isCompleteSet (cards : List Card) : Bool :=
  match cards with
  | [] => false
  | c :: rest => (c.rank == 13) && c.isFaceUp && descFrom c rest && (rest.length == 12)

/-- Turn the last card of a column face-up (the `nextCol[nextCol.length-1]
.isFaceUp = true` step of the handlers, guarded by non-emptiness). -/
def exposeTop : List Card → List Card
  | [] => []
  | [c] => [{ c with isFaceUp := true }]
  | c :: c' :: rest => c :: exposeTop (c' :: rest)

/-- Result record of `checkAndRemoveCompleteSet`. -/
structure RemoveResult : Type where
  newColumn : Column
  removed : Bool
deriving DecidableEq, Repr

/-- Modelled from the spec: `checkAndRemoveCompleteSet` (Set Completion
Detector, gameLogic.ts, not in the available sources).  If the last 13 cards
of the column form a complete face-up same-suit King-to-Ace run, they are
excised from the tail, the remaining top card (if any) is exposed, and
`removed = true`; otherwise the column is returned unchanged with
`removed = false`. -/
def checkAndRemoveCompleteSet (column : Column) : RemoveResult :=
  if isCompleteSet (column.drop (column.length - 13)) then
    { newColumn := exposeTop (column.take (column.length - 13)), removed := true }
  else
    { newColumn := column, removed := false }

/-- Modelled from the spec: `dealInitial` (Dealer, gameLogic.ts, not in the
available sources).  Columns 0–3 receive 6 cards and columns 4–9 receive 5
cards, in deck order; the last card of every column is set face-up; the
remaining cards form the stock. -/
def dealChunks : List Nat → List Card → List Column × List Card
  | [], rest => ([], rest)
  | n :: ns, rest =>
      let col := exposeTop (rest.take n)
      let q := dealChunks ns (rest.drop n)
      (col :: q.1, q.2)

/-- The column sizes of the initial deal: 4 columns of 6, then 6 columns of 5. -/
def initialSizes : List Nat := [6, 6, 6, 6, 5, 5, 5, 5, 5, 5]

/-- Modelled from the spec: `dealInitial` packaged as the initial
`GameState` built by `initGame` (foundations 0, moves 0, score 500). -/
def initState (deck : List Card) : GameState :=
  let p := dealChunks initialSizes deck
  { tableau := p.1, stock := p.2, foundations := 0, moves := 0, score := 500 }

/-- `Array.prototype.map` with the element index, as used by the handlers to
rebuild the tableau (`tableau.map((col, idx) => …)`). -/
def mapWithIdx (f : Nat → Column → Column) : List Column → List Column
  | [] => []
  | col :: rest => f 0 col :: mapWithIdx (fun i c => f (i + 1) c) rest

/-- One iteration of the deal loop of `handleDeal`: pop a card from the end
of the stock and, if one was there, push it face-up onto the column. -/
def dealStep (stock : List Card) (col : Column) : List Card × Column :=
  match stock.getLast? with
  | none => (stock, col)
  | some c => (stock.dropLast, col ++ [{ c with isFaceUp := true }])

/-- The `for (let i = 0; i < 10; i++)` loop of `handleDeal`, threading the
stock through the columns in order.  (The tableau invariably has exactly 10
columns, so iterating over the list is the loop over indices 0–9.) -/
def dealLoop : List Card → List Column → List Card × List Column
  | stock, [] => (stock, [])
  | stock, col :: rest =>
      let p := dealStep stock col
      let q := dealLoop p.1 rest
      (q.1, p.2 :: q.2)

/-- The alert text of `handleDeal`. -/
def dealAlertMsg : String := "All columns must have at least one card before dealing from the stock."

/-- `handleDeal` from the App source: an empty stock returns immediately
with no message; an empty column aborts with the alert message and no state
change; otherwise 10 cards are dealt from the end of the stock, one per
column, and the move counter is incremented (score and foundations are left
unchanged).  The second component is the alert message, if one was shown. -/
def handleDeal (gs : GameState) : GameState × Option String :=
  if gs.stock.length == 0 then (gs, none)
  else if gs.tableau.any (fun col => col.length == 0) then (gs, some dealAlertMsg)
  else
    let p := dealLoop gs.stock gs.tableau
    ({ gs with stock := p.1, tableau := p.2, moves := gs.moves + 1 }, none)

/-- The tableau rebuild of the successful-move branch of `handleCardClick`:
the source column is cut at the selection index and its new top exposed, and
the moving cards are appended to the destination column. -/
def moveTableau (t : List Column) (sc ci dc : Nat) (moving : List Card) : List Column :=
  mapWithIdx (fun idx col =>
    if idx = sc then exposeTop (col.take ci)
    else if idx = dc then col ++ moving
    else col) t

/-- The `newTableau.map(col => checkAndRemoveCompleteSet(col))` pass of
`handleCardClick`, returning the processed columns and the number of
complete sets removed. -/
def removePass : List Column → List Column × Nat
  | [] => ([], 0)
  | col :: rest =>
      let r := checkAndRemoveCompleteSet col
      let q := removePass rest
      (r.newColumn :: q.1, (if r.removed then 1 else 0) + q.2)

/-- The successful-move branch of `handleCardClick` (selection at column
`sc`, card index `ci`, clicked column `dc`): move the selected suffix,
run the set-completion pass over every column, and update foundations,
moves and score (`+100` per removed set, `−1` for the move). -/
def handleCardMove (gs : GameState) (sc ci dc : Nat) : GameState :=
  let sourceCol := gs.tableau.getD sc []
  let movingCards := sourceCol.drop ci
  let t1 := moveTableau gs.tableau sc ci dc movingCards
  let p := removePass t1
  { gs with
      tableau := p.1
      foundations := gs.foundations + p.2
      moves := gs.moves + 1
      score := gs.score + (p.2 : Int) * 100 - 1 }

/-- The tableau rebuild of `handleEmptyColumnClick`: the source column is
cut and its new top exposed, and the destination column is replaced by the
moving cards. -/
def moveTableauEmpty (t : List Column) (sc ci dc : Nat) (moving : List Card) : List Column :=
  mapWithIdx (fun idx col =>
    if idx = sc then exposeTop (col.take ci)
    else if idx = dc then moving
    else col) t

/-- `handleEmptyColumnClick` from the App source: relocate the selected
suffix onto the clicked (empty) column, increment moves and decrement score.
No validation and no set-completion pass take place, and foundations are
untouched. -/
def handleEmptyColumnClick (gs : GameState) (sc ci dc : Nat) : GameState :=
  let sourceCol := gs.tableau.getD sc []
  let movingCards := sourceCol.drop ci
  { gs with
      tableau := moveTableauEmpty gs.tableau sc ci dc movingCards
      moves := gs.moves + 1
      score := gs.score - 1 }

/-- Total number of cards held by the tableau columns. -/
def tableauCount (t : List Column) : Nat := (t.map List.length).sum

/-- Cards in play plus cards retired into foundations (13 per set). -/
def totalCards (gs : GameState) : Nat :=
  tableauCount gs.tableau + gs.stock.length + 13 * gs.foundations

/-- Reachable game states, indexed by the number of deals performed.
The base case is the state produced by the initial deal of any 104-card
deck (the Deck Builder always outputs 104 cards).  The step cases are the
three state-changing handlers, each guarded by exactly the conditions under
which the source lets that code path run: a deal requires a non-empty stock
and no empty column; the card-move branch requires a click on a column
other than the selected one (same-column clicks deselect) holding the
destination card, with `isValidMove` approving; the empty-column handler is
invoked by the UI only on a rendered (hence in-range) empty column. -/
inductive ReachableN : GameState → Nat → Prop
  | init (deck : List Card) :
      deck.length = 104 → ReachableN (initState deck) 0
  | deal (s : GameState) (d : Nat) :
      ReachableN s d →
      (s.stock.length == 0) = false →
      (s.tableau.any fun col => col.length == 0) = false →
      ReachableN (handleDeal s).1 (d + 1)
  | move (s : GameState) (d : Nat) (sc ci dc : Nat) :
      ReachableN s d →
      sc ≠ dc →
      dc < s.tableau.length →
      isValidMove ((s.tableau.getD sc []).drop ci) (s.tableau.getD dc []).getLast? = true →
      ReachableN (handleCardMove s sc ci dc) d
  | emptyMove (s : GameState) (d : Nat) (sc ci dc : Nat) :
      ReachableN s d →
      dc < s.tableau.length →
      s.tableau.getD dc [] = [] →
      ReachableN (handleEmptyColumnClick s sc ci dc) d

/-- A reachable game state (some number of deals). -/
def Reachable (s : GameState) : Prop := ∃ d, ReachableN s d

instance : Inhabited Card := ⟨⟨0, Suit.spades, 0, false⟩⟩

/-- The property the spec ascribes to the tail of a removable column: 13
face-up cards, all of the suit of the first of them, with rank values
descending from 13 (King) at index 0 to 1 (Ace) at index 12. -/
def KingToAceRun (cards : List Card) : Prop :=
  cards.length = 13 ∧
  (∀ c ∈ cards, c.isFaceUp = true) ∧
  (∀ c ∈ cards, c.suit = (cards.getD 0 default).suit) ∧
  (∀ i, i < cards.length → (cards.getD i default).rank = 13 - i)

instance (cards : List Card) : Decidable (KingToAceRun cards) := by
  unfold KingToAceRun
  infer_instance

/-- A concrete 104-card one-suit deck: eight copies of each of the 13 spade
ranks, a possible output of the Deck Builder at difficulty 1. -/
def sampleDeck : List Card :=
  (List.range 104).map fun i => { id := i, suit := Suit.spades, rank := i % 13 + 1, isFaceUp := false }

/-- The state right after one deal from the freshly dealt sample game. -/
def dealOnce : GameState := (handleDeal (initState sampleDeck)).1

/-- A complete face-up King-to-Ace spade run. -/
def fullRun : Column :=
  (List.range 13).map fun i => { id := 200 + i, suit := Suit.spades, rank := 13 - i, isFaceUp := true }

/-- Two complete face-up King-to-Ace spade runs stacked in one column. -/
def doubleRun : Column := fullRun ++ (fullRun.map fun c => { c with id := c.id + 50 })

/-- A column of 14 cards: one face-down card below a complete spade run. -/
def runOver : Column := ⟨99, Suit.hearts, 7, false⟩ :: fullRun

/-- A game state with an empty first column and an exhausted stock. -/
def gsEmptyBoth : GameState :=
  { tableau := [] :: List.replicate 9 [⟨7, Suit.hearts, 4, true⟩]
    stock := []
    foundations := 0
    moves := 3
    score := 497 }

/-- A game state with an empty first column but cards left in the stock. -/
def gsEmptyCol : GameState :=
  { tableau := [] :: List.replicate 9 [⟨7, Suit.hearts, 4, true⟩]
    stock := [⟨8, Suit.clubs, 9, false⟩]
    foundations := 0
    moves := 3
    score := 497 }

/-- A game state holding a complete run in column 0, the rest empty. -/
def gsRun : GameState :=
  { tableau := fullRun :: List.replicate 9 []
    stock := []
    foundations := 0
    moves := 0
    score := 500 }

/-! ### Structural lemmas about the tableau rebuilding combinators -/

theorem exposeTop_length (l : List Card) : (exposeTop l).length = l.length := by
  match l with
  | [] => rfl
  | [c] => rfl
  | c :: c' :: rest =>
      rw [exposeTop]
      simp [exposeTop_length (c' :: rest)]

theorem mapWithIdx_length (t : List Column) :
    ∀ f : Nat → Column → Column, (mapWithIdx f t).length = t.length := by
  induction t with
  | nil => intro f; rfl
  | cons col rest ih => intro f; rw [mapWithIdx]; simp [ih]

theorem mapWithIdx_getD (t : List Column) :
    ∀ (f : Nat → Column → Column) (j : Nat), j < t.length →
      (mapWithIdx f t).getD j [] = f j (t.getD j []) := by
  induction t with
  | nil => intro f j hj; simp at hj
  | cons col rest ih =>
      intro f j hj
      match j with
      | 0 => rw [mapWithIdx]; rfl
      | j + 1 =>
          rw [mapWithIdx]
          simp only [List.getD_cons_succ]
          exact ih _ j (by simpa using hj)

theorem mapWithIdx_id (t : List Column) :
    ∀ f : Nat → Column → Column, (∀ i c, f i c = c) → mapWithIdx f t = t := by
  induction t with
  | nil => intro f _; rfl
  | cons col rest ih =>
      intro f hf
      rw [mapWithIdx, hf, ih _ (fun i c => hf (i + 1) c)]

theorem tableauCount_nil : tableauCount [] = 0 := rfl

theorem tableauCount_cons (col : Column) (rest : List Column) :
    tableauCount (col :: rest) = col.length + tableauCount rest := by
  simp [tableauCount]

/-- Counting after an index-map that rewrites a single position `dc`. -/
theorem onePoint_count (G : Column → Column) (t : List Column) :
    ∀ (f : Nat → Column → Column) (dc : Nat),
      (∀ i c, i ≠ dc → f i c = c) → (∀ c, f dc c = G c) →
      tableauCount (mapWithIdx f t) + (if dc < t.length then (t.getD dc []).length else 0)
        = tableauCount t + (if dc < t.length then (G (t.getD dc [])).length else 0) := by
  induction t with
  | nil => intro f dc hf hd; simp [mapWithIdx, tableauCount]
  | cons col rest ih =>
      intro f dc hf hd
      match dc with
      | 0 =>
          rw [mapWithIdx, hd, mapWithIdx_id rest _ (fun i c => hf (i + 1) c (Nat.succ_ne_zero i))]
          simp only [List.getD_cons_zero, List.length_cons, Nat.zero_lt_succ, if_pos,
            tableauCount_cons]
          omega
      | d + 1 =>
          rw [mapWithIdx, hf 0 col (Nat.succ_ne_zero d).symm]
          have step := ih (fun i c => f (i + 1) c) d
            (fun i c hi => hf (i + 1) c (by omega)) (fun c => hd c)
          simp only [List.getD_cons_succ, List.length_cons, Nat.add_lt_add_iff_right,
            tableauCount_cons]
          omega

/-- Counting after an index-map that rewrites two distinct positions. -/
theorem twoPoint_count (F G : Column → Column) (t : List Column) :
    ∀ (f : Nat → Column → Column) (sc dc : Nat),
      sc ≠ dc →
      (∀ i c, i ≠ sc → i ≠ dc → f i c = c) →
      (∀ c, f sc c = F c) → (∀ c, f dc c = G c) →
      tableauCount (mapWithIdx f t)
          + (if sc < t.length then (t.getD sc []).length else 0)
          + (if dc < t.length then (t.getD dc []).length else 0)
        = tableauCount t
          + (if sc < t.length then (F (t.getD sc [])).length else 0)
          + (if dc < t.length then (G (t.getD dc [])).length else 0) := by
  induction t with
  | nil => intro f sc dc hne hf hs hd; simp [mapWithIdx, tableauCount]
  | cons col rest ih =>
      intro f sc dc hne hf hs hd
      match sc, dc with
      | 0, 0 => exact absurd rfl hne
      | 0, d + 1 =>
          rw [mapWithIdx, hs]
          have step := onePoint_count G rest (fun i c => f (i + 1) c) d
            (fun i c hi => hf (i + 1) c (Nat.succ_ne_zero i) (by omega)) (fun c => hd c)
          simp only [List.getD_cons_zero, List.getD_cons_succ, List.length_cons,
            Nat.zero_lt_succ, if_pos, Nat.add_lt_add_iff_right, tableauCount_cons]
          omega
      | s + 1, 0 =>
          rw [mapWithIdx, hd]
          have step := onePoint_count F rest (fun i c => f (i + 1) c) s
            (fun i c hi => hf (i + 1) c (by omega) (Nat.succ_ne_zero i)) (fun c => hs c)
          simp only [List.getD_cons_zero, List.getD_cons_succ, List.length_cons,
            Nat.zero_lt_succ, if_pos, Nat.add_lt_add_iff_right, tableauCount_cons]
          omega
      | s + 1, d + 1 =>
          rw [mapWithIdx, hf 0 col (Nat.succ_ne_zero s).symm (Nat.succ_ne_zero d).symm]
          have step := ih (fun i c => f (i + 1) c) s d (by omega)
            (fun i c hi hj => hf (i + 1) c (by omega) (by omega))
            (fun c => hs c) (fun c => hd c)
          simp only [List.getD_cons_succ, List.length_cons, Nat.add_lt_add_iff_right,
            tableauCount_cons]
          omega

/-! ### Card-counting lemmas for each operation -/

theorem dealStep_count (stock : List Card) (col : Column) :
    (dealStep stock col).2.length + (dealStep stock col).1.length
      = col.length + stock.length := by
  cases h : stock.getLast? with
  | none => simp [dealStep, h]
  | some c =>
      have hne : stock ≠ [] := by
        intro h'
        rw [h'] at h
        simp at h
      have hpos : 0 < stock.length := List.length_pos.mpr hne
      simp only [dealStep, h, List.length_append, List.length_dropLast, List.length_cons,
        List.length_nil]
      omega

theorem dealLoop_count (t : List Column) :
    ∀ stock : List Card,
      tableauCount (dealLoop stock t).2 + (dealLoop stock t).1.length
        = tableauCount t + stock.length := by
  induction t with
  | nil => intro stock; simp [dealLoop, tableauCount]
  | cons col rest ih =>
      intro stock
      simp only [dealLoop, tableauCount_cons]
      have h1 := dealStep_count stock col
      have h2 := ih (dealStep stock col).1
      omega

theorem dealChunks_count (ns : List Nat) :
    ∀ deck : List Card,
      tableauCount (dealChunks ns deck).1 + (dealChunks ns deck).2.length = deck.length := by
  induction ns with
  | nil => intro deck; simp [dealChunks, tableauCount]
  | cons n ns ih =>
      intro deck
      simp only [dealChunks, tableauCount_cons]
      have h := ih (deck.drop n)
      simp only [exposeTop_length, List.length_take, List.length_drop] at *
      omega

theorem isCompleteSet_length (cards : List Card) (h : isCompleteSet cards = true) :
    cards.length = 13 := by
  match cards with
  | [] => simp [isCompleteSet] at h
  | c :: rest =>
      simp only [isCompleteSet, Bool.and_eq_true, beq_iff_eq] at h
      have := h.2
      simp only [List.length_cons]
      omega

theorem checkAndRemove_count (col : Column) :
    (checkAndRemoveCompleteSet col).newColumn.length
      + 13 * (if (checkAndRemoveCompleteSet col).removed then 1 else 0) = col.length := by
  by_cases hc : isCompleteSet (col.drop (col.length - 13)) = true
  · have hlen := isCompleteSet_length _ hc
    rw [List.length_drop] at hlen
    simp only [checkAndRemoveCompleteSet, hc, if_true, exposeTop_length, List.length_take]
    omega
  · simp [checkAndRemoveCompleteSet, hc]

theorem removePass_count (t : List Column) :
    tableauCount (removePass t).1 + 13 * (removePass t).2 = tableauCount t := by
  induction t with
  | nil => rfl
  | cons col rest ih =>
      simp only [removePass, tableauCount_cons]
      have h := checkAndRemove_count col
      omega

theorem removePass_length (t : List Column) : (removePass t).1.length = t.length := by
  induction t with
  | nil => rfl
  | cons col rest ih => simp [removePass, ih]

theorem removePass_getD (t : List Column) :
    ∀ j, j < t.length →
      (removePass t).1.getD j [] = (checkAndRemoveCompleteSet (t.getD j [])).newColumn := by
  induction t with
  | nil => intro j hj; simp at hj
  | cons col rest ih =>
      intro j hj
      match j with
      | 0 => simp [removePass]
      | j + 1 =>
          simp only [removePass, List.getD_cons_succ]
          exact ih j (by simpa using hj)

theorem moveTableau_count (t : List Column) (sc ci dc : Nat)
    (hne : sc ≠ dc) (hdc : dc < t.length) :
    tableauCount (moveTableau t sc ci dc ((t.getD sc []).drop ci)) = tableauCount t := by
  have h := twoPoint_count (fun c => exposeTop (c.take ci))
    (fun c => c ++ (t.getD sc []).drop ci) t
    (fun idx col =>
      if idx = sc then exposeTop (col.take ci)
      else if idx = dc then col ++ (t.getD sc []).drop ci
      else col)
    sc dc hne
    (fun i c hi hj => by simp [hi, hj])
    (fun c => by simp)
    (fun c => by simp [hne.symm])
  rw [moveTableau]
  by_cases hsc : sc < t.length
  · rw [if_pos hsc, if_pos hdc, if_pos hsc, if_pos hdc] at h
    simp only [exposeTop_length, List.length_take, List.length_append, List.length_drop] at h
    omega
  · rw [if_neg hsc, if_neg hsc, if_pos hdc, if_pos hdc] at h
    simp only [List.length_append, List.length_drop] at h
    have hgd : (t.getD sc []).length = 0 := by
      rw [List.getD_eq_default _ _ (by omega : t.length ≤ sc)]
      rfl
    omega

theorem moveTableauEmpty_count (t : List Column) (sc ci dc : Nat)
    (hdc : dc < t.length) (hempty : t.getD dc [] = []) :
    tableauCount (moveTableauEmpty t sc ci dc ((t.getD sc []).drop ci)) = tableauCount t := by
  rw [moveTableauEmpty]
  by_cases hne : sc = dc
  · subst hne
    have h := onePoint_count (fun c => exposeTop (c.take ci)) t
      (fun idx col =>
        if idx = sc then exposeTop (col.take ci)
        else if idx = sc then (t.getD sc []).drop ci
        else col)
      sc
      (fun i c hi => by simp [hi])
      (fun c => by simp)
    rw [if_pos hdc, if_pos hdc] at h
    simp only [exposeTop_length, List.length_take] at h
    have hgd : (t.getD sc []).length = 0 := by rw [hempty]; rfl
    omega
  · have h := twoPoint_count (fun c => exposeTop (c.take ci))
      (fun _ => (t.getD sc []).drop ci) t
      (fun idx col =>
        if idx = sc then exposeTop (col.take ci)
        else if idx = dc then (t.getD sc []).drop ci
        else col)
      sc dc hne
      (fun i c hi hj => by simp [hi, hj])
      (fun c => by simp)
      (fun c => by simp [Ne.symm hne])
    rw [if_pos hdc, if_pos hdc] at h
    have hdcl : (t.getD dc []).length = 0 := by rw [hempty]; rfl
    by_cases hsc : sc < t.length
    · rw [if_pos hsc, if_pos hsc] at h
      simp only [exposeTop_length, List.length_take, List.length_drop] at h
      omega
    · rw [if_neg hsc, if_neg hsc] at h
      simp only [List.length_drop] at h
      have hgd : (t.getD sc []).length = 0 := by
        rw [List.getD_eq_default _ _ (by omega : t.length ≤ sc)]
        rfl
      omega

/-! ### Conservation of the 104 cards by every operation -/

theorem handleDeal_dealt (gs : GameState)
    (h1 : (gs.stock.length == 0) = false)
    (h2 : (gs.tableau.any fun col => col.length == 0) = false) :
    (handleDeal gs).1 = { gs with
        stock := (dealLoop gs.stock gs.tableau).1
        tableau := (dealLoop gs.stock gs.tableau).2
        moves := gs.moves + 1 } := by
  rw [handleDeal, h1, h2]
  simp

theorem totalCards_deal (gs : GameState)
    (h1 : (gs.stock.length == 0) = false)
    (h2 : (gs.tableau.any fun col => col.length == 0) = false) :
    totalCards (handleDeal gs).1 = totalCards gs := by
  rw [handleDeal_dealt gs h1 h2]
  simp only [totalCards]
  have h := dealLoop_count gs.tableau gs.stock
  omega

theorem totalCards_move (gs : GameState) (sc ci dc : Nat)
    (hne : sc ≠ dc) (hdc : dc < gs.tableau.length) :
    totalCards (handleCardMove gs sc ci dc) = totalCards gs := by
  simp only [handleCardMove, totalCards]
  have h1 := removePass_count (moveTableau gs.tableau sc ci dc ((gs.tableau.getD sc []).drop ci))
  have h2 := moveTableau_count gs.tableau sc ci dc hne hdc
  omega

theorem totalCards_emptyMove (gs : GameState) (sc ci dc : Nat)
    (hdc : dc < gs.tableau.length) (hempty : gs.tableau.getD dc [] = []) :
    totalCards (handleEmptyColumnClick gs sc ci dc) = totalCards gs := by
  simp only [handleEmptyColumnClick, totalCards]
  have h := moveTableauEmpty_count gs.tableau sc ci dc hdc hempty
  omega

/-- Field-level description of the state built by the successful-move
branch of `handleCardClick`. -/
theorem handleCardMove_fields (gs : GameState) (sc ci dc : Nat) :
    (handleCardMove gs sc ci dc).foundations
        = gs.foundations
          + (removePass (moveTableau gs.tableau sc ci dc ((gs.tableau.getD sc []).drop ci))).2
      ∧ (handleCardMove gs sc ci dc).moves = gs.moves + 1
      ∧ (handleCardMove gs sc ci dc).score
          = gs.score
            + ((removePass (moveTableau gs.tableau sc ci dc
                ((gs.tableau.getD sc []).drop ci))).2 : Int) * 100 - 1
      ∧ (handleCardMove gs sc ci dc).stock = gs.stock
      ∧ (handleCardMove gs sc ci dc).tableau
          = (removePass (moveTableau gs.tableau sc ci dc
              ((gs.tableau.getD sc []).drop ci))).1 :=
  ⟨rfl, rfl, rfl, rfl, rfl⟩

/-- Field-level description of the state built by `handleEmptyColumnClick`. -/
theorem handleEmptyColumnClick_fields (gs : GameState) (sc ci dc : Nat) :
    (handleEmptyColumnClick gs sc ci dc).foundations = gs.foundations
      ∧ (handleEmptyColumnClick gs sc ci dc).moves = gs.moves + 1
      ∧ (handleEmptyColumnClick gs sc ci dc).score = gs.score - 1
      ∧ (handleEmptyColumnClick gs sc ci dc).stock = gs.stock
      ∧ (handleEmptyColumnClick gs sc ci dc).tableau
          = moveTableauEmpty gs.tableau sc ci dc ((gs.tableau.getD sc []).drop ci) :=
  ⟨rfl, rfl, rfl, rfl, rfl⟩

/-! ### Invariants over reachable states -/

/-- C5: in every reachable game state the cards in the tableau columns,
the cards left in the stock and the 13 cards of each removed foundation
set add up to the 104 cards of the deck; every operation (deal, sequence
move, empty-column move, set removal) preserves this total. -/
theorem C5_card_conservation (s : GameState) (h : Reachable s) : totalCards s = 104 := by
  obtain ⟨d, hd⟩ := h
  induction hd with
  | init deck hlen =>
      have h := dealChunks_count initialSizes deck
      simp only [totalCards, initState]
      omega
  | deal s d hs h1 h2 ih => rw [totalCards_deal s h1 h2]; exact ih
  | move s d sc ci dc hs hne hdc hv ih => rw [totalCards_move s sc ci dc hne hdc]; exact ih
  | emptyMove s d sc ci dc hs hdc he ih => rw [totalCards_emptyMove s sc ci dc hdc he]; exact ih

/-- C4 (amended): the score of a reachable state is
`500 + 100·foundations − moves + deals`, where `deals` counts the deals
performed; a sequence move or empty-column move raises `moves` by one and
lowers the score by one (plus 100 per set removed), but a deal raises
`moves` by one while leaving the score unchanged. -/
theorem C4_score_equation (s : GameState) (d : Nat) (h : ReachableN s d) :
    s.score = 500 + 100 * (s.foundations : Int) - (s.moves : Int) + (d : Int) := by
  induction h with
  | init deck hlen => simp [initState]
  | deal s d hs h1 h2 ih =>
      rw [handleDeal_dealt s h1 h2]
      show s.score = 500 + 100 * (s.foundations : Int) - ((s.moves + 1 : Nat) : Int)
        + ((d + 1 : Nat) : Int)
      push_cast
      push_cast at ih
      omega
  | move s d sc ci dc hs hne hdc hv ih =>
      rw [(handleCardMove_fields s sc ci dc).2.2.1, (handleCardMove_fields s sc ci dc).1,
        (handleCardMove_fields s sc ci dc).2.1]
      push_cast
      push_cast at ih
      omega
  | emptyMove s d sc ci dc hs hdc he ih =>
      rw [(handleEmptyColumnClick_fields s sc ci dc).2.2.1,
        (handleEmptyColumnClick_fields s sc ci dc).1,
        (handleEmptyColumnClick_fields s sc ci dc).2.1]
      push_cast
      push_cast at ih
      omega

/-! ### Characterisations of the run predicates -/

theorem descFrom_iff_head (l : List Card) : ∀ p : Card,
    descFrom p l = true ↔
      ((∀ x ∈ l, x.isFaceUp = true) ∧ (∀ x ∈ l, x.suit = p.suit) ∧
        ∀ i, i < l.length → (l.getD i default).rank + i + 1 = p.rank) := by
  induction l with
  | nil => intro p; simp [descFrom]
  | cons c rest ih =>
      intro p
      rw [descFrom]
      simp only [Bool.and_eq_true, beq_iff_eq]
      rw [ih c]
      constructor
      · rintro ⟨⟨⟨hup, hsuit⟩, hrank⟩, hface, hsuits, hranks⟩
        refine ⟨?_, ?_, ?_⟩
        · intro x hx
          rcases List.mem_cons.mp hx with rfl | hx
          · exact hup
          · exact hface x hx
        · intro x hx
          rcases List.mem_cons.mp hx with rfl | hx
          · exact hsuit
          · rw [hsuits x hx, hsuit]
        · intro i hi
          match i with
          | 0 =>
              simp only [List.getD_cons_zero]
              omega
          | i + 1 =>
              simp only [List.getD_cons_succ]
              have h := hranks i (by simp only [List.length_cons] at hi; omega)
              omega
      · rintro ⟨hface, hsuits, hranks⟩
        have hup : c.isFaceUp = true := hface c (List.mem_cons_self c rest)
        have hsuit : c.suit = p.suit := hsuits c (List.mem_cons_self c rest)
        have hrank : c.rank + 1 = p.rank := by
          have h := hranks 0 (by simp)
          simpa using h
        refine ⟨⟨⟨hup, hsuit⟩, hrank⟩, ?_, ?_, ?_⟩
        · intro x hx
          exact hface x (List.mem_cons_of_mem c hx)
        · intro x hx
          rw [hsuits x (List.mem_cons_of_mem c hx), hsuit]
        · intro i hi
          have h := hranks (i + 1) (by simp only [List.length_cons]; omega)
          simp only [List.getD_cons_succ] at h
          omega

theorem descFrom_iff_pairs (l : List Card) : ∀ p : Card,
    descFrom p l = true ↔
      ((∀ x ∈ l, x.isFaceUp = true) ∧
        ∀ i, i + 1 < (p :: l).length →
          ((p :: l).getD (i + 1) default).suit = ((p :: l).getD i default).suit ∧
          ((p :: l).getD (i + 1) default).rank + 1 = ((p :: l).getD i default).rank) := by
  induction l with
  | nil => intro p; simp [descFrom]
  | cons c rest ih =>
      intro p
      rw [descFrom]
      simp only [Bool.and_eq_true, beq_iff_eq]
      rw [ih c]
      constructor
      · rintro ⟨⟨⟨hup, hsuit⟩, hrank⟩, hface, hpairs⟩
        refine ⟨?_, ?_⟩
        · intro x hx
          rcases List.mem_cons.mp hx with rfl | hx
          · exact hup
          · exact hface x hx
        · intro i hi
          match i with
          | 0 => exact ⟨hsuit, hrank⟩
          | i + 1 =>
              simp only [List.getD_cons_succ]
              exact hpairs i (by simp only [List.length_cons] at hi ⊢; omega)
      · rintro ⟨hface, hpairs⟩
        have h0 := hpairs 0 (by simp only [List.length_cons]; omega)
        simp only [List.getD_cons_succ, List.getD_cons_zero] at h0
        refine ⟨⟨⟨hface c (List.mem_cons_self c rest), h0.1⟩, h0.2⟩, ?_, ?_⟩
        · intro x hx
          exact hface x (List.mem_cons_of_mem c hx)
        · intro i hi
          have h := hpairs (i + 1) (by simp only [List.length_cons] at hi ⊢; omega)
          simpa only [List.getD_cons_succ] using h

theorem isCompleteSet_iff (cards : List Card) :
    isCompleteSet cards = true ↔ KingToAceRun cards := by
  match cards with
  | [] => simp [isCompleteSet, KingToAceRun]
  | c :: rest =>
      rw [isCompleteSet]
      simp only [Bool.and_eq_true, beq_iff_eq]
      rw [descFrom_iff_head rest c]
      unfold KingToAceRun
      constructor
      · rintro ⟨⟨⟨hr, hup⟩, hface, hsuits, hranks⟩, hlen⟩
        refine ⟨by simp [hlen], ?_, ?_, ?_⟩
        · intro x hx
          rcases List.mem_cons.mp hx with rfl | hx
          · exact hup
          · exact hface x hx
        · intro x hx
          simp only [List.getD_cons_zero]
          rcases List.mem_cons.mp hx with rfl | hx
          · rfl
          · exact hsuits x hx
        · intro i hi
          match i with
          | 0 => simpa using hr
          | i + 1 =>
              simp only [List.getD_cons_succ]
              have h := hranks i (by simp only [List.length_cons] at hi; omega)
              omega
      · rintro ⟨hlen, hface, hsuits, hranks⟩
        have hlen' : rest.length = 12 := by
          simp only [List.length_cons] at hlen
          omega
        have hr : c.rank = 13 := by
          have h := hranks 0 (by simp)
          simpa using h
        refine ⟨⟨⟨hr, hface c (List.mem_cons_self c rest)⟩, ?_, ?_, ?_⟩, hlen'⟩
        · intro x hx
          exact hface x (List.mem_cons_of_mem c hx)
        · intro x hx
          have h := hsuits x (List.mem_cons_of_mem c hx)
          simpa using h
        · intro i hi
          have h := hranks (i + 1) (by simp only [List.length_cons]; omega)
          simp only [List.getD_cons_succ] at h
          omega

/-! ### The claims -/

/-- C1: `isValidMove` returns true iff a destination top card exists and
the moving sequence's bottom card (its first element in stored
bottom-to-top order) has rank value exactly one less than the destination
top card's rank value; no suit condition relates the two cards, and the
result is false whenever the destination is absent. -/
theorem C1_isValidMove_spec (movingCards : List Card) (destCard : Option Card) :
    (isValidMove movingCards destCard = true ↔
        ∃ d, destCard = some d ∧
          ∃ b rest, movingCards = b :: rest ∧ b.rank + 1 = d.rank)
      ∧ isValidMove movingCards none = false := by
  constructor
  · match destCard, movingCards with
    | none, mv => simp [isValidMove]
    | some d, [] => simp [isValidMove]
    | some d, b :: rest => simp [isValidMove]
  · match movingCards with
    | [] => rfl
    | b :: rest => rfl

/-- C2: `canMoveSequence` returns true iff the list is non-empty, every
card in it is face-up, and each consecutive pair shares the same suit with
the later card's rank value one less than the earlier card's; a single
face-up card qualifies, and any face-down card or suit/rank violation
yields false. -/
theorem C2_canMoveSequence_spec (cards : List Card) :
    canMoveSequence cards = true ↔
      (cards ≠ [] ∧ (∀ c ∈ cards, c.isFaceUp = true) ∧
        ∀ i, i + 1 < cards.length →
          (cards.getD (i + 1) default).suit = (cards.getD i default).suit ∧
          (cards.getD (i + 1) default).rank + 1 = (cards.getD i default).rank) := by
  match cards with
  | [] => simp [canMoveSequence]
  | c :: rest =>
      rw [canMoveSequence, Bool.and_eq_true, descFrom_iff_pairs rest c]
      constructor
      · rintro ⟨h1, h2, h3⟩
        refine ⟨by simp, ?_, h3⟩
        intro x hx
        rcases List.mem_cons.mp hx with rfl | hx
        · exact h1
        · exact h2 x hx
      · rintro ⟨-, h2, h3⟩
        exact ⟨h2 c (List.mem_cons_self c rest),
          fun x hx => h2 x (List.mem_cons_of_mem c hx), h3⟩

/-- C3: if the last 13 cards of a column form a face-up same-suit run
descending from King (13) to Ace (1), `checkAndRemoveCompleteSet` removes
that tail, exposes the remaining top card (if any) and reports
`removed = true`; if the column is shorter than 13 cards or the tail does
not form such a run, the column is returned unchanged with
`removed = false`. -/
theorem C3_checkAndRemoveCompleteSet_spec (col : Column) :
    (KingToAceRun (col.drop (col.length - 13)) →
        checkAndRemoveCompleteSet col
          = { newColumn := exposeTop (col.take (col.length - 13)), removed := true })
      ∧ ((col.length < 13 ∨ ¬ KingToAceRun (col.drop (col.length - 13))) →
        checkAndRemoveCompleteSet col = { newColumn := col, removed := false }) := by
  constructor
  · intro h
    rw [checkAndRemoveCompleteSet, if_pos ((isCompleteSet_iff _).mpr h)]
  · intro h
    have hn : ¬ KingToAceRun (col.drop (col.length - 13)) := by
      rcases h with h | h
      · intro hk
        have hl := hk.1
        rw [List.length_drop] at hl
        omega
      · exact h
    rw [checkAndRemoveCompleteSet, if_neg (fun hc => hn ((isCompleteSet_iff _).mp hc))]

/-- C3 witness: the 14-card column `runOver` (a face-down card under a
complete spade run) is reduced to its exposed first card, and the empty
column is left unchanged. -/
theorem C3_witness :
    checkAndRemoveCompleteSet runOver
        = { newColumn := exposeTop (runOver.take (runOver.length - 13)), removed := true }
      ∧ checkAndRemoveCompleteSet [] = { newColumn := [], removed := false } :=
  ⟨(C3_checkAndRemoveCompleteSet_spec runOver).1 (by decide),
    (C3_checkAndRemoveCompleteSet_spec []).2 (by decide)⟩

/-- C9 counterexample: on a column of two stacked complete runs the first
removal leaves a second complete run at the tail, so the second application
reports `removed = true`, refuting unrestricted idempotence. -/
theorem C9_counterexample :
    ¬ ((checkAndRemoveCompleteSet (checkAndRemoveCompleteSet doubleRun).newColumn).removed
        = false) := by decide

/-- C9 (amended): on any column shorter than 26 cards (in particular any
column that does not already stack two complete runs) a second application
of `checkAndRemoveCompleteSet` to the first application's output reports
`removed = false`. -/
theorem C9_idempotent_below26 (col : Column) (h : col.length < 26) :
    (checkAndRemoveCompleteSet (checkAndRemoveCompleteSet col).newColumn).removed = false := by
  by_cases hc : isCompleteSet (col.drop (col.length - 13)) = true
  · have hlen13 := isCompleteSet_length _ hc
    rw [List.length_drop] at hlen13
    have hnew : (checkAndRemoveCompleteSet col).newColumn
        = exposeTop (col.take (col.length - 13)) := by
      rw [checkAndRemoveCompleteSet, if_pos hc]
    rw [hnew]
    have hlen2 : (exposeTop (col.take (col.length - 13))).length < 13 := by
      rw [exposeTop_length, List.length_take]
      omega
    have hfalse : ¬ isCompleteSet
        ((exposeTop (col.take (col.length - 13))).drop
          ((exposeTop (col.take (col.length - 13))).length - 13)) = true := by
      intro h2
      have hl := isCompleteSet_length _ h2
      rw [List.length_drop] at hl
      omega
    rw [checkAndRemoveCompleteSet, if_neg hfalse]
  · have hnew : (checkAndRemoveCompleteSet col).newColumn = col := by
      rw [checkAndRemoveCompleteSet, if_neg hc]
    rw [hnew, checkAndRemoveCompleteSet, if_neg hc]

/-- C9 witness: a single complete run is shorter than 26 cards and indeed
yields `removed = false` on the second application. -/
theorem C9_witness :
    fullRun.length < 26
      ∧ (checkAndRemoveCompleteSet
          (checkAndRemoveCompleteSet fullRun).newColumn).removed = false :=
  ⟨by decide, C9_idempotent_below26 fullRun (by decide)⟩

/-- C6 counterexample: in a state whose stock is exhausted and whose first
column is empty, the deal attempt is rejected by the stock check first, so
no alert message is produced, refuting the claim that every empty-column
state yields the user-facing message. -/
theorem C6_counterexample :
    (∃ col ∈ gsEmptyBoth.tableau, col = [])
      ∧ handleDeal gsEmptyBoth ≠ (gsEmptyBoth, some dealAlertMsg) := by
  constructor
  · exact ⟨[], by decide, rfl⟩
  · decide

/-- C6 (amended): whenever the stock is non-empty and some tableau column
is empty, the deal is rejected with the user-facing alert message and the
state is returned unchanged (atomicity of the failed deal). -/
theorem C6_deal_rejected (gs : GameState) (hstock : gs.stock ≠ [])
    (hempty : ∃ col ∈ gs.tableau, col = []) :
    handleDeal gs = (gs, some dealAlertMsg) := by
  have h1 : (gs.stock.length == 0) = false := by
    cases hs : gs.stock with
    | nil => exact absurd hs hstock
    | cons a l => rfl
  have h2 : (gs.tableau.any fun col => col.length == 0) = true := by
    obtain ⟨col, hmem, hcol⟩ := hempty
    rw [List.any_eq_true]
    exact ⟨col, hmem, by rw [hcol]; rfl⟩
  rw [handleDeal, h1, h2]
  simp

/-- C6 witness: the rejection fires on a concrete state with an empty
first column and a non-empty stock. -/
theorem C6_witness : handleDeal gsEmptyCol = (gsEmptyCol, some dealAlertMsg) :=
  C6_deal_rejected gsEmptyCol (by decide) ⟨[], by decide, rfl⟩

/-- C10: when the stock is empty the deal handler returns immediately:
no alert message and no change to any component of the state. -/
theorem C10_deal_noop_empty_stock (gs : GameState) (h : gs.stock = []) :
    handleDeal gs = (gs, none) := by
  rw [handleDeal, h]
  rfl

/-- C10 witness: the no-op fires on a concrete empty-stock state. -/
theorem C10_witness : handleDeal gsEmptyBoth = (gsEmptyBoth, none) :=
  C10_deal_noop_empty_stock gsEmptyBoth rfl

/-- C8: the empty-column move path relocates the selected suffix onto the
empty destination column unconditionally: with a movable selection and an
empty in-range destination, and with no rank or suit hypothesis relating
the moved cards to anything, the destination receives exactly the moved
suffix, the source keeps its prefix with a freshly exposed top, and the
move is counted. -/
theorem C8_emptyColumn_unconditional (gs : GameState) (sc ci dc : Nat)
    (hsel : canMoveSequence ((gs.tableau.getD sc []).drop ci) = true)
    (hdc : dc < gs.tableau.length)
    (hempty : gs.tableau.getD dc [] = []) :
    (handleEmptyColumnClick gs sc ci dc).tableau.getD dc []
        = (gs.tableau.getD sc []).drop ci
      ∧ (handleEmptyColumnClick gs sc ci dc).tableau.getD sc []
          = exposeTop ((gs.tableau.getD sc []).take ci)
      ∧ (handleEmptyColumnClick gs sc ci dc).moves = gs.moves + 1
      ∧ (handleEmptyColumnClick gs sc ci dc).score = gs.score - 1 := by
  have hne : sc ≠ dc := by
    intro he
    rw [he, hempty] at hsel
    simp [canMoveSequence] at hsel
  have hsc : sc < gs.tableau.length := by
    by_contra hge
    rw [List.getD_eq_default _ _ (by omega : gs.tableau.length ≤ sc)] at hsel
    simp [canMoveSequence] at hsel
  refine ⟨?_, ?_, (handleEmptyColumnClick_fields gs sc ci dc).2.1,
    (handleEmptyColumnClick_fields gs sc ci dc).2.2.1⟩
  · rw [(handleEmptyColumnClick_fields gs sc ci dc).2.2.2.2, moveTableauEmpty,
      mapWithIdx_getD _ _ dc hdc]
    simp [hne.symm]
  · rw [(handleEmptyColumnClick_fields gs sc ci dc).2.2.2.2, moveTableauEmpty,
      mapWithIdx_getD _ _ sc hsc]
    simp

/-- C8 witness: moving the complete run of `gsRun` onto the empty column 1
succeeds and relocates the whole suffix. -/
theorem C8_witness :
    (handleEmptyColumnClick gsRun 0 0 1).tableau.getD 1 []
        = (gsRun.tableau.getD 0 []).drop 0
      ∧ (handleEmptyColumnClick gsRun 0 0 1).tableau.getD 0 []
          = exposeTop ((gsRun.tableau.getD 0 []).take 0)
      ∧ (handleEmptyColumnClick gsRun 0 0 1).moves = gsRun.moves + 1
      ∧ (handleEmptyColumnClick gsRun 0 0 1).score = gsRun.score - 1 :=
  C8_emptyColumn_unconditional gsRun 0 0 1 (by decide) (by decide) (by decide)

/-- C7 counterexample: a legitimate empty-column move (movable selection,
empty in-range destination) carries a complete King-to-Ace run onto the
empty column; afterwards that column still holds a removable complete set
and foundations are unchanged, so the set-completion check did not run on
the post-move columns in that transition. -/
theorem C7_counterexample :
    canMoveSequence ((gsRun.tableau.getD 0 []).drop 0) = true
      ∧ gsRun.tableau.getD 1 [] = []
      ∧ (checkAndRemoveCompleteSet
          ((handleEmptyColumnClick gsRun 0 0 1).tableau.getD 1 [])).removed = true
      ∧ (handleEmptyColumnClick gsRun 0 0 1).foundations = gsRun.foundations := by
  refine ⟨by decide, by decide, by decide, by decide⟩

/-- C7 (amended): after a successful card-click sequence move the
set-completion check is applied exactly once to every column of the
post-move tableau and foundations grow by the number of removed sets,
whereas the empty-column move path applies no set-completion check at all:
its tableau is exactly the raw post-move tableau and its foundations are
unchanged. -/
theorem C7_checkPass_cardMoveOnly (gs : GameState) (sc ci dc : Nat) :
    (∀ j, j < gs.tableau.length →
        (handleCardMove gs sc ci dc).tableau.getD j []
          = (checkAndRemoveCompleteSet
              ((moveTableau gs.tableau sc ci dc
                ((gs.tableau.getD sc []).drop ci)).getD j [])).newColumn)
      ∧ (handleCardMove gs sc ci dc).foundations
          = gs.foundations
            + (removePass (moveTableau gs.tableau sc ci dc
                ((gs.tableau.getD sc []).drop ci))).2
      ∧ (handleEmptyColumnClick gs sc ci dc).tableau
          = moveTableauEmpty gs.tableau sc ci dc ((gs.tableau.getD sc []).drop ci)
      ∧ (handleEmptyColumnClick gs sc ci dc).foundations = gs.foundations := by
  refine ⟨?_, (handleCardMove_fields gs sc ci dc).1,
    (handleEmptyColumnClick_fields gs sc ci dc).2.2.2.2,
    (handleEmptyColumnClick_fields gs sc ci dc).1⟩
  intro j hj
  rw [(handleCardMove_fields gs sc ci dc).2.2.2.2]
  exact removePass_getD _ j (by rw [moveTableau, mapWithIdx_length]; exact hj)

/-- C7 witness: the once-per-column check equation evaluated on column 0
of a concrete card move. -/
theorem C7_witness :
    (handleCardMove gsRun 0 0 1).tableau.getD 0 []
        = (checkAndRemoveCompleteSet
            ((moveTableau gsRun.tableau 0 0 1
              ((gsRun.tableau.getD 0 []).drop 0)).getD 0 [])).newColumn :=
  (C7_checkPass_cardMoveOnly gsRun 0 0 1).1 0 (by decide)

/-- C4 counterexample: one deal from the freshly dealt sample game is
reachable, increments the move counter and leaves the score at 500, so the
claimed equation `score = 500 + 100·foundations − moves` fails there. -/
theorem C4_counterexample :
    Reachable dealOnce
      ∧ ¬ dealOnce.score
          = 500 + 100 * (dealOnce.foundations : Int) - (dealOnce.moves : Int) := by
  refine ⟨⟨1, ?_⟩, by decide⟩
  exact ReachableN.deal (initState sampleDeck) 0
    (ReachableN.init sampleDeck (by decide)) (by decide) (by decide)

/-- C4 witness: the amended score equation evaluated on the freshly dealt
sample game (zero deals performed). -/
theorem C4_witness :
    (initState sampleDeck).score
      = 500 + 100 * ((initState sampleDeck).foundations : Int)
        - ((initState sampleDeck).moves : Int) + ((0 : Nat) : Int) :=
  C4_score_equation (initState sampleDeck) 0 (ReachableN.init sampleDeck (by decide))

/-- C5 witness: the freshly dealt sample game is reachable and holds
exactly 104 cards. -/
theorem C5_witness :
    Reachable (initState sampleDeck) ∧ totalCards (initState sampleDeck) = 104 :=
  ⟨⟨0, ReachableN.init sampleDeck (by decide)⟩,
    C5_card_conservation (initState sampleDeck) ⟨0, ReachableN.init sampleDeck (by decide)⟩⟩

end Spider
